import Mathlib

/-
Verification of the Telegram-group search aggregation pipeline
(repository: Durand756/search-bot-telegram, files src/app.py and src/bot.py).

The Python code is shallowly embedded: dictionaries become a `Record`
structure, Python string operations are modelled character-list-wise,
HTTP fetches become an outcome oracle, `random.randint` becomes an
explicit number oracle, and BeautifulSoup element lookups become an
abstract element structure carrying the texts the code reads off them.
-/

/-! ## Python string primitives -/

/-- Model of Python str.split() with no argument: split on runs of
whitespace, discarding empty pieces.  The accumulator holds the current
word reversed. -/
def splitWsGo : List Char → List Char → List String
  | [], acc => if acc = [] then [] else [⟨acc.reverse⟩]
  | c :: rest, acc =>
    if c.isWhitespace then
      (if acc = [] then splitWsGo rest [] else ⟨acc.reverse⟩ :: splitWsGo rest [])
    else splitWsGo rest (c :: acc)

/-- Python str.split() (whitespace words). -/
def pySplit (s : String) : List String := splitWsGo s.data []

/-- Python str.lower() (ASCII case mapping, which is what all inputs here use). -/
def pyLower (s : String) : String := ⟨s.data.map Char.toLower⟩

/-- Strip characters satisfying p from both ends of a character list. -/
def stripPred (p : Char → Bool) (l : List Char) : List Char :=
  ((l.dropWhile p).reverse.dropWhile p).reverse

/-- Python str.strip() with no argument (trim whitespace at both ends). -/
def pyStrip (s : String) : String := ⟨stripPred Char.isWhitespace s.data⟩

/-- Python str.strip(single-slash): remove leading and trailing slash runs,
as in link.lower().strip(slash-char) in bot.py. -/
def stripSlash (s : String) : String := ⟨stripPred (fun c => c == '/') s.data⟩

/-- Whether sep occurs as a contiguous subsequence of l
(Python membership test sub in s). -/
def containsSeq (sep : List Char) : List Char → Bool
  | [] => sep.isEmpty
  | c :: rest => sep.isPrefixOf (c :: rest) || containsSeq sep rest

/-- Python substring membership needle in hay. -/
def containsStr (hay needle : String) : Bool := containsSeq needle.data hay.data

/-- Worker for Python str.split(sep) with a non-empty separator
c0 :: sep.  The accumulator holds the current piece reversed.  The fuel
argument starts at the length of the scanned list and every step
consumes at least one character along with one unit of fuel, so the
fuel-exhausted case is unreachable; fuel makes the recursion structural
and therefore kernel-reducible. -/
def splitSeqGo (c0 : Char) (sep : List Char) : Nat → List Char → List Char → List (List Char)
  | _, [], acc => [acc.reverse]
  | 0, l, acc => [acc.reverse ++ l]
  | fuel + 1, c :: rest, acc =>
    if (c0 :: sep).isPrefixOf (c :: rest) then
      acc.reverse :: splitSeqGo c0 sep fuel (List.drop sep.length rest) []
    else
      splitSeqGo c0 sep fuel rest (c :: acc)

/-- Python str.split(sep).  For an empty separator Python raises;
that case never occurs in this code base and is mapped to [s]. -/
def pySplitOn (s sep : String) : List String :=
  match sep.data with
  | [] => [s]
  | c0 :: cs => (splitSeqGo c0 cs s.data.length s.data []).map (fun l => ⟨l⟩)

/-- Python s.split(sep) indexed at -1 (the last piece). -/
def lastSplitStr (s sep : String) : String := (pySplitOn s sep).getLastD ""

/-- Python s.split(sep) indexed at 0 (the first piece). -/
def headSplitStr (s sep : String) : String := (pySplitOn s sep).headD ""

/-- Python character slicing s up to n characters. -/
def pyTake (s : String) (n : Nat) : String := ⟨s.data.take n⟩

/-- Python str.startswith for a literal. -/
def pyStartsWith (s pre0 : String) : Bool := pre0.data.isPrefixOf s.data

/-- Python str.title(): upper-case every letter that does not follow a
letter, lower-case every other letter (ASCII behaviour). -/
def pyTitleGo : Bool → List Char → List Char
  | _, [] => []
  | prevAlpha, c :: rest =>
    if c.isAlpha then
      (if prevAlpha then c.toLower else c.toUpper) :: pyTitleGo true rest
    else c :: pyTitleGo false rest

/-- Python str.title(). -/
def pyTitle (s : String) : String := ⟨pyTitleGo false s.data⟩

/-- Numeric value of a digit-character list (the int() of a digit run). -/
def digitsToNat (l : List Char) : Nat := l.foldl (fun acc c => acc * 10 + (c.toNat - 48)) 0

/-- Python int(s) for a string expected to hold digits; none models the
ValueError raised on any other content. -/
def pyInt (s : String) : Option Int :=
  if s.data ≠ [] ∧ s.data.all Char.isDigit then some (digitsToNat s.data : Nat) else none

/-! ## Data model -/

/-- One discovered group/channel candidate, the dictionaries built by the
parsers in src/app.py and src/bot.py
(keys title, link, description, members, source). -/
structure Record where
  title : String
  link : String
  description : String
  members : Int
  source : String
deriving DecidableEq

/-! ## Deduplication (bot.py remove-duplicates, app.py deduplicate-groups) -/

/-- The link key computed in bot.py lines 286-289: lower-case, strip
slash characters at both ends, and if the link contains the t.me marker
reduce it to the identifier after the last such marker and before any
question mark. -/
def botLinkKey (link : String) : String :=
  let l := stripSlash (pyLower link)
  if containsStr l "t.me/" then headSplitStr (lastSplitStr l "t.me/") "?" else l

/-- The link key computed in app.py line 381: the lower-cased link, with
no further normalization. -/
def appLinkKey (link : String) : String := pyLower link

/-- Generic worker shared by the two duplicate-removal routines: walk
the list keeping a record when its key passes valid and was not seen
yet, mirroring the seen-set loops of bot.py lines 280-295 and app.py
lines 375-386. -/
def dedupGo (key : Record → String) (valid : String → Bool) :
    List String → List Record → List Record
  | _, [] => []
  | seen, g :: rest =>
    if valid (key g) ∧ key g ∉ seen then
      g :: dedupGo key valid (key g :: seen) rest
    else
      dedupGo key valid seen rest

/-- bot.py TelegramGroupSearcher remove-duplicates (lines 280-295):
every key is accepted, a key is kept on first sight only. -/
def remove_duplicates (groups : List Record) : List Record :=
  dedupGo (fun g => botLinkKey g.link) (fun _ => true) [] groups

/-- app.py TelegramGroupSearcher deduplicate-groups (lines 375-386):
the lower-cased link must be non-empty and unseen. -/
def deduplicate_groups (groups : List Record) : List Record :=
  dedupGo (fun g => appLinkKey g.link) (fun s => s ≠ "") [] groups

/-! ## Stable descending sort (Python list.sort with a key and reverse) -/

/-- Insert x behind every element with a strictly larger key and ahead
of the first element whose key is at most k x; together with
pySortDesc this is exactly a stable descending sort, the semantics of
Python list.sort with key k and reverse set. -/
def insertDescBy {α : Type} (k : α → Int) (x : α) : List α → List α
  | [] => [x]
  | y :: rest => if k x < k y then y :: insertDescBy k x rest else x :: y :: rest

/-- Stable descending sort by an integer key. -/
def pySortDesc {α : Type} (k : α → Int) : List α → List α
  | [] => []
  | x :: rest => insertDescBy k x (pySortDesc k rest)

/-! ## Relevance scoring and ranking (app.py filter-and-rank, lines 388-428) -/

/-- app.py calculate-relevance (lines 392-420): 3 points per distinct
query word in the title word set, 1 per distinct query word in the
description word set, +1 for more than 1000 members, a further +2 for
more than 10000, +1 for the two favoured sources. -/
def calculate_relevance (query : String) (g : Record) : Int :=
  let query_words := (pySplit (pyLower query)).dedup
  let title_words := pySplit (pyLower g.title)
  let title_matches : Int := ((query_words.filter (fun w => decide (w ∈ title_words))).length : Nat)
  let desc_words := pySplit (pyLower g.description)
  let desc_matches : Int := ((query_words.filter (fun w => decide (w ∈ desc_words))).length : Nat)
  let score := title_matches * 3 + desc_matches * 1
  let score := score + (if (1000 : Int) < g.members then 1 else 0)
  let score := score + (if (10000 : Int) < g.members then 2 else 0)
  let score := score + (if g.source = "tgstat.com" ∨ g.source = "tlgrm.eu" then 1 else 0)
  score

/-- app.py filter-and-rank (lines 422-428): sort in place by relevance
descending (Python sorts are stable), then keep the records with a
strictly positive score. -/
def filter_and_rank (groups : List Record) (query : String) : List Record :=
  let sorted := pySortDesc (calculate_relevance query) groups
  sorted.filter (fun g => decide (0 < calculate_relevance query g))

/-! ## Fetch executor and failure isolation
(bot.py search-single-source lines 114-134; app.py lines 123-153) -/

/-- Outcome of one HTTP GET against a source: a response with a status
code and a body, a timeout, or any other transport error. -/
inductive FetchOutcome where
  | success (status : Nat) (body : String)
  | timeout
  | netError (msg : String)
deriving DecidableEq

/-- A fetch outcome the spec calls a failure: non-2xx status, timeout,
or transport error. -/
def fetchFailed : FetchOutcome → Prop
  | .success st _ => st < 200 ∨ 300 ≤ st
  | .timeout => True
  | .netError _ => True

/-- The raw transport step: deliver the response, or raise (model of
awaiting session.get, where timeout and transport problems surface as
exceptions). -/
def fetch_response : FetchOutcome → Except String (Nat × String)
  | .success st body => Except.ok (st, body)
  | .timeout => Except.error "timeout"
  | .netError m => Except.error m

/-- Body of the try block of search-single-source: on status 200 parse
the body, on any other status return no records; transport exceptions
propagate.  parse abstracts the per-source HTML parser, itself
exception-free (every parser catches per-element errors). -/
def search_single_source_try (parse : String → List Record) (o : FetchOutcome) :
    Except String (List Record) :=
  match fetch_response o with
  | Except.ok (st, body) => if st = 200 then Except.ok (parse body) else Except.ok []
  | Except.error e => Except.error e

/-- search-single-source with its except clauses (bot.py lines 132-134,
app.py lines 148-153): any raised error is logged and turned into an
empty record list. -/
def search_single_source (parse : String → List Record) (o : FetchOutcome) : List Record :=
  match search_single_source_try parse o with
  | Except.ok gs => gs
  | Except.error _ => []

/-- asyncio.gather over the per-source fetches: each source contributes
independently the caught result of its own fetch. -/
def gather_results (parse : String → List Record) (outcomes : List FetchOutcome) :
    List (List Record) :=
  outcomes.map (search_single_source parse)

/-- The merged all-groups list built from the gathered results. -/
def all_groups_of (parse : String → List Record) (outcomes : List FetchOutcome) : List Record :=
  (gather_results parse outcomes).flatten

/-! ## bot.py search pipeline (search-groups lines 76-112, broader-search lines 255-278)

The network is abstracted by an oracle res mapping a source index and a
query term to the record list which search-single-source returns for
that fetch (source failures are already empty lists by the isolation
above). -/

/-- The list of broadened terms of bot.py lines 257-262: the first word
when the query has a space (Python raises IndexError for an all-space
query there; callers always strip, so the headD default is unreachable),
then query-plus-group, query-plus-channel, telegram-plus-query. -/
def broader_terms (query : String) : List String :=
  [if query.data.contains ' ' then (pySplit query).headD "" else query,
   query ++ " group", query ++ " channel", "telegram " ++ query]

/-- Inner loop of broader-search over the first two sources: extend the
accumulator with each source's records and stop once ten additional
records were gathered. -/
def inner_loop (res : Nat → String → List Record) (term : String) :
    List Nat → List Record → List Record
  | [], acc => acc
  | s :: rest, acc =>
    let acc1 := acc ++ res s term
    if 10 ≤ acc1.length then acc1 else inner_loop res term rest acc1

/-- Outer loop of broader-search over the broadened terms: skip the term
equal to the original query, and stop once ten additional records were
gathered. -/
def broader_loop (res : Nat → String → List Record) (query : String) :
    List String → List Record → List Record
  | [], acc => acc
  | t :: rest, acc =>
    if t = query then broader_loop res query rest acc
    else
      let acc1 := inner_loop res t [0, 1] acc
      if 10 ≤ acc1.length then acc1 else broader_loop res query rest acc1

/-- bot.py broader-search (lines 255-278). -/
def broader_search (res : Nat → String → List Record) (query : String) : List Record :=
  broader_loop res query (broader_terms query) []

/-- The merged record lists of the three configured sources for a query
(bot.py lines 84-95). -/
def all_groups_bot (res : Nat → String → List Record) (query : String) : List Record :=
  ((List.range 3).map (fun i => res i query)).flatten

/-- Deduplicated, member-sorted, truncated results before the broadening
test (bot.py lines 97-104). -/
def final_groups_bot (res : Nat → String → List Record) (query : String)
    (maxResults : Nat) : List Record :=
  (pySortDesc (fun g => g.members) (remove_duplicates (all_groups_bot res query))).take maxResults

/-- bot.py search-groups (lines 76-112): merge, deduplicate, sort by
members descending, truncate; if fewer than three records remain, run
the broader search once, merge it in, deduplicate and truncate again. -/
def search_groups_bot (res : Nat → String → List Record) (query : String)
    (maxResults : Nat) : List Record :=
  let final := final_groups_bot res query maxResults
  if final.length < 3 then
    (remove_duplicates (final ++ broader_search res query)).take maxResults
  else final

/-! ## app.py popular-groups fallback and search pipeline -/

/-- The static category table of app.py get-popular-groups
(lines 327-348), as title-link-description triples. -/
def popular_groups_table : List (String × List (String × String × String)) :=
  [("crypto",
    [("Crypto News Official", "https://t.me/cryptonews", "Actualités crypto officielles"),
     ("Bitcoin Community", "https://t.me/bitcoin", "Communauté Bitcoin"),
     ("DeFi Updates", "https://t.me/defi_news", "Actualités DeFi")]),
   ("musique",
    [("Music Lovers", "https://t.me/musiclovers", "Communauté des amoureux de musique"),
     ("Audio Quality", "https://t.me/audioquality", "Musique haute qualité"),
     ("New Music Releases", "https://t.me/newmusic", "Nouvelles sorties musicales")]),
   ("tech",
    [("Tech News Global", "https://t.me/technews", "Actualités technologiques"),
     ("Programming Hub", "https://t.me/programming", "Communauté des développeurs"),
     ("AI & Machine Learning", "https://t.me/artificialintelligence", "Intelligence artificielle")]),
   ("sport",
    [("Sports World", "https://t.me/sportsworld", "Actualités sportives mondiales"),
     ("Football Updates", "https://t.me/football", "Mises à jour football"),
     ("NBA Basketball", "https://t.me/nba", "Basketball NBA")])]

/-- app.py get-popular-groups (lines 325-373): collect the categories
occurring in the query; when none matches, fabricate three generic
entries from the query itself; each resulting record receives a random
member count (the rng oracle models random.randint drawn per record in
order) and the source popular. -/
def get_popular_groups (query : String) (rng : Nat → Int) : List Record :=
  let query_lower := pyLower query
  let matching :=
    ((popular_groups_table.filter (fun c =>
        containsStr query_lower c.1
          || (pySplit c.1).any (fun w => containsStr query_lower w))).map Prod.snd).flatten
  let base :=
    if matching = [] then
      [(pyTitle query ++ " Community", "https://t.me/telegram", "Communauté " ++ query),
       (pyTitle query ++ " News", "https://t.me/telegram", "Actualités " ++ query),
       (pyTitle query ++ " Discussion", "https://t.me/telegram", "Discussion " ++ query)]
    else matching
  base.enum.map (fun p => Record.mk p.2.1 p.2.2.1 p.2.2.2 (rng p.1) "popular")

/-- app.py search-groups (lines 86-121): clean the query, merge the
three sources' results, deduplicate, append popular groups when fewer
than five unique records remain, rank, and truncate to maxResults. -/
def search_groups_app (res : Nat → String → List Record) (rng : Nat → Int)
    (query : String) (maxResults : Nat) : List Record :=
  let query_clean := pyLower (pyStrip query)
  let allGroups := ((List.range 3).map (fun i => res i query_clean)).flatten
  let uniqueGroups := deduplicate_groups allGroups
  let withGeneric :=
    if uniqueGroups.length < 5 then uniqueGroups ++ get_popular_groups query_clean rng
    else uniqueGroups
  (filter_and_rank withGeneric query_clean).take maxResults

/-! ## Entry validation (app.py perform-search lines 509-521, bot.py handle-text lines 386-390) -/

/-- Outcome of app.py perform-search before formatting: the two
validation rejections or the search result. -/
inductive SearchOutcome where
  | tooShort
  | tooLong
  | results (groups : List Record)
deriving DecidableEq

/-- app.py WhatsAppBot perform-search (lines 509-521): reject queries of
fewer than 2 or more than 50 characters before searching; otherwise run
the search with twenty maximum results. -/
def perform_search_app (res : Nat → String → List Record) (rng : Nat → Int)
    (query : String) : SearchOutcome :=
  if query.length < 2 then SearchOutcome.tooShort
  else if 50 < query.length then SearchOutcome.tooLong
  else SearchOutcome.results (search_groups_app res rng query 20)

/-- bot.py handle-text (lines 386-390): strip the text and search it
with forty maximum results whenever more than one character remains;
shorter texts are silently ignored (none). -/
def handle_text_bot (res : Nat → String → List Record) (text : String) :
    Option (List Record) :=
  let query := pyStrip text
  if 1 < query.length then some (search_groups_bot res query 40) else none

/-! ## tlgrm.eu parser (app.py parse-tlgrm-eu lines 177-214) and
number extraction (bot.py extract-number lines 297-302) -/

/-- Abstraction of one matched anchor element of the tlgrm.eu page:
the href attribute value (empty when absent, as link.get with default),
the stripped text of the title element found next to it when one was
found, and likewise for the description element. -/
structure TlgrmElem where
  href : String
  titleText : Option String
  descText : Option String
deriving DecidableEq

/-- The member count of app.py lines 199-201: the page-level regex match
group when present (digits possibly holding grouping whitespace or
commas), with separators removed and parsed by int(); no match yields 0,
and a non-numeric residue models the ValueError which skips the element. -/
def membersValue (membersMatch : Option String) : Option Int :=
  match membersMatch with
  | none => some 0
  | some s => pyInt ⟨s.data.filter (fun c => !(c.isWhitespace || c == ','))⟩

/-- app.py parse-tlgrm-eu (lines 177-214): for each matched element,
normalize the href into an absolute t.me URL when needed, take the
title element's text or fall back to the last path segment of the URL,
take the description text truncated to 100 characters or the default
text, attach the page-level member count, and tag the source; a
per-element failure (the none of membersValue) skips that element. -/
def parse_tlgrm_eu (membersMatch : Option String) (elems : List TlgrmElem) : List Record :=
  elems.filterMap (fun e =>
    let url :=
      if pyStartsWith e.href "http" then e.href
      else "https://t.me/" ++ ⟨(lastSplitStr e.href "/").data.filter (fun c => c ≠ '@')⟩
    let title :=
      match e.titleText with
      | some t => t
      | none => lastSplitStr url "/"
    let description :=
      match e.descText with
      | some d => pyTake d 100
      | none => "Canal/Groupe Telegram"
    match membersValue membersMatch with
    | none => none
    | some m => some (Record.mk (pyTake title 60) url description m "tlgrm.eu"))

/-- First maximal digit run of a character list (the first element of
re.findall over the digit pattern). -/
def first_digit_run : List Char → Option (List Char)
  | [] => none
  | c :: rest =>
    if c.isDigit then some (c :: rest.takeWhile Char.isDigit) else first_digit_run rest

/-- bot.py extract-number (lines 297-302): the integer value of the
first digit run of the text, or 0 when there is none. -/
def extract_number (text : String) : Int :=
  match first_digit_run text.data with
  | none => 0
  | some ds => (digitsToNat ds : Nat)

/-! ## Spec-side definitions used to compare against the code -/

/-- The identity-key normalization exactly as the specification words
it for claim C2: lower-case the link, strip one trailing slash, and
reduce a resource-by-identifier link to just its identifier. -/
def specNormKey (link : String) : String :=
  let l := pyLower link
  let l := if l.data.getLast? = some '/' then ⟨l.data.dropLast⟩ else l
  if containsStr l "t.me/" then lastSplitStr l "t.me/" else l

/-! ## Concrete inputs used by counterexamples and witnesses -/

/-- Oracle giving forty-one records with pairwise distinct links on the
first source and nothing elsewhere. -/
def resManyLinks : Nat → String → List Record :=
  fun i _ =>
    if i = 0 then (List.range 41).map (fun n => Record.mk "t" ("c" ++ toString n) "" 0 "s")
    else []

/-- Oracle giving three records with pairwise distinct links on the
first source and nothing elsewhere. -/
def resThreeLinks : Nat → String → List Record :=
  fun i _ =>
    if i = 0 then
      [Record.mk "t" "a" "" 0 "s", Record.mk "t" "b" "" 0 "s", Record.mk "t" "c" "" 0 "s"]
    else []

/-- Oracle delivering the parse of a tlgrm.eu page holding one element
whose title element is present but has empty text. -/
def resEmptyTitle : Nat → String → List Record :=
  fun i _ =>
    if i = 0 then
      parse_tlgrm_eu (some "2000")
        [TlgrmElem.mk "https://t.me/abcchan" (some "") (some "crypto news")]
    else []

/-- Oracle answering only the broadened term q-space-group. -/
def resBroadA : Nat → String → List Record :=
  fun _ t => if t = "q group" then [Record.mk "t" "a" "" 0 "s"] else []

/-- Like resBroadA but additionally answering a term that is not among
the broadened terms of the query q. -/
def resBroadB : Nat → String → List Record :=
  fun _ t =>
    if t = "q group" then [Record.mk "t" "a" "" 0 "s"]
    else if t = "zzz" then [Record.mk "t" "b" "" 0 "s"] else []

/-! ## Lemmas about the stable descending sort -/

theorem mem_insertDescBy {α : Type} (k : α → Int) (x : α) (l : List α) (a : α) :
    a ∈ insertDescBy k x l ↔ a = x ∨ a ∈ l := by
  induction l with
  | nil => simp [insertDescBy]
  | cons y rest ih =>
    by_cases h : k x < k y <;> simp [insertDescBy, h, ih] <;> tauto

theorem length_insertDescBy {α : Type} (k : α → Int) (x : α) (l : List α) :
    (insertDescBy k x l).length = l.length + 1 := by
  induction l with
  | nil => simp [insertDescBy]
  | cons y rest ih =>
    by_cases h : k x < k y <;> simp [insertDescBy, h, ih]

theorem length_pySortDesc {α : Type} (k : α → Int) (l : List α) :
    (pySortDesc k l).length = l.length := by
  induction l with
  | nil => rfl
  | cons x rest ih => simp [pySortDesc, length_insertDescBy, ih]

theorem pairwise_insertDescBy {α : Type} (k : α → Int) (x : α) (l : List α)
    (h : l.Pairwise (fun a b => k b ≤ k a)) :
    (insertDescBy k x l).Pairwise (fun a b => k b ≤ k a) := by
  induction l with
  | nil => simp [insertDescBy]
  | cons y rest ih =>
    rcases List.pairwise_cons.mp h with ⟨hy, hrest⟩
    by_cases hlt : k x < k y
    · simp only [insertDescBy, if_pos hlt]
      refine List.pairwise_cons.mpr ⟨?_, ih hrest⟩
      intro z hz
      rcases (mem_insertDescBy k x rest z).mp hz with hzx | hzr
      · exact hzx ▸ le_of_lt hlt
      · exact hy z hzr
    · simp only [insertDescBy, if_neg hlt]
      refine List.pairwise_cons.mpr ⟨?_, h⟩
      intro z hz
      rcases List.mem_cons.mp hz with hzy | hzr
      · exact hzy ▸ le_of_not_lt hlt
      · exact le_trans (hy z hzr) (le_of_not_lt hlt)

theorem pairwise_pySortDesc {α : Type} (k : α → Int) (l : List α) :
    (pySortDesc k l).Pairwise (fun a b => k b ≤ k a) := by
  induction l with
  | nil => simp [pySortDesc]
  | cons x rest ih => exact pairwise_insertDescBy k x _ ih

theorem filter_insertDescBy {α : Type} (k : α → Int) (x : α) (l : List α)
    (p : α → Bool) (hp : ∀ y, p y = true → p x = true → k y = k x) :
    (insertDescBy k x l).filter p = if p x then x :: l.filter p else l.filter p := by
  induction l with
  | nil => by_cases hx : p x <;> simp [insertDescBy, List.filter, hx]
  | cons y rest ih =>
    by_cases hlt : k x < k y
    · have hy : p y = true → p x = true → False := by
        intro h1 h2
        exact absurd (hp y h1 h2) (by omega)
      by_cases hx : p x
      · have hyf : p y = false := by
          cases hpy : p y with
          | false => rfl
          | true => exact absurd (hy hpy hx) (fun f => f)
        simp [insertDescBy, hlt, List.filter_cons, hyf, ih, hx]
      · simp [insertDescBy, hlt, List.filter_cons, ih, hx]
    · by_cases hx : p x <;> simp [insertDescBy, hlt, List.filter_cons, hx]

theorem filter_pySortDesc {α : Type} (k : α → Int) (l : List α)
    (p : α → Bool) (hp : ∀ y z, p y = true → p z = true → k y = k z) :
    (pySortDesc k l).filter p = l.filter p := by
  induction l with
  | nil => rfl
  | cons x rest ih =>
    have hx : ∀ y, p y = true → p x = true → k y = k x := fun y h1 h2 => hp y x h1 h2
    by_cases hpx : p x
    · simp [pySortDesc, filter_insertDescBy k x _ p hx, hpx, List.filter_cons, ih]
    · simp [pySortDesc, filter_insertDescBy k x _ p hx, hpx, List.filter_cons, ih]

/-! ## Lemmas about the duplicate-removal worker -/

theorem dedupGo_key_not_seen (key : Record → String) (valid : String → Bool) :
    ∀ (l : List Record) (seen : List String) (g : Record),
      g ∈ dedupGo key valid seen l → valid (key g) = true ∧ key g ∉ seen := by
  intro l
  induction l with
  | nil => intro seen g h; simp [dedupGo] at h
  | cons a rest ih =>
    intro seen g h
    by_cases ha : valid (key a) ∧ key a ∉ seen
    · rw [dedupGo, if_pos ha] at h
      rcases List.mem_cons.mp h with hg | hg
      · exact hg ▸ ha
      · have := ih (key a :: seen) g hg
        exact ⟨this.1, fun hs => this.2 (List.mem_cons_of_mem _ hs)⟩
    · rw [dedupGo, if_neg ha] at h
      exact ih seen g h

theorem dedupGo_nodup_keys (key : Record → String) (valid : String → Bool) :
    ∀ (l : List Record) (seen : List String),
      ((dedupGo key valid seen l).map (fun g => key g)).Nodup := by
  intro l
  induction l with
  | nil => intro seen; simp [dedupGo]
  | cons a rest ih =>
    intro seen
    by_cases ha : valid (key a) ∧ key a ∉ seen
    · rw [dedupGo, if_pos ha]
      refine List.nodup_cons.mpr ⟨?_, ih (key a :: seen)⟩
      intro hmem
      rcases List.mem_map.mp hmem with ⟨g, hg, hkey⟩
      exact (dedupGo_key_not_seen key valid rest _ g hg).2 (hkey ▸ List.mem_cons_self _ _)
    · rw [dedupGo, if_neg ha]
      exact ih seen

theorem dedupGo_sublist (key : Record → String) (valid : String → Bool) :
    ∀ (l : List Record) (seen : List String), List.Sublist (dedupGo key valid seen l) l := by
  intro l
  induction l with
  | nil => intro seen; simp [dedupGo]
  | cons a rest ih =>
    intro seen
    by_cases ha : valid (key a) ∧ key a ∉ seen
    · rw [dedupGo, if_pos ha]
      exact (ih (key a :: seen)).cons₂ a
    · rw [dedupGo, if_neg ha]
      exact (ih seen).cons a

theorem dedupGo_idem (key : Record → String) (valid : String → Bool) :
    ∀ (l : List Record) (seen : List String),
      dedupGo key valid seen (dedupGo key valid seen l) = dedupGo key valid seen l := by
  intro l
  induction l with
  | nil => intro seen; simp [dedupGo]
  | cons a rest ih =>
    intro seen
    by_cases ha : valid (key a) ∧ key a ∉ seen
    · rw [dedupGo, if_pos ha]
      rw [dedupGo, if_pos ha, ih (key a :: seen)]
    · rw [dedupGo, if_neg ha]
      exact ih seen

theorem dedupGo_first_seen (key : Record → String) (valid : String → Bool) :
    ∀ (l : List Record) (seen : List String) (g : Record),
      g ∈ dedupGo key valid seen l →
      ∃ pre post, l = pre ++ g :: post ∧ ∀ h ∈ pre, key h ≠ key g ∨ key h ∈ seen := by
  intro l
  induction l with
  | nil => intro seen g h; simp [dedupGo] at h
  | cons a rest ih =>
    intro seen g h
    by_cases ha : valid (key a) ∧ key a ∉ seen
    · rw [dedupGo, if_pos ha] at h
      rcases List.mem_cons.mp h with hg | hg
      · exact ⟨[], rest, by simp [hg], by simp⟩
      · rcases ih (key a :: seen) g hg with ⟨pre, post, hsplit, hpre⟩
        have hgkey := dedupGo_key_not_seen key valid rest (key a :: seen) g hg
        refine ⟨a :: pre, post, by simp [hsplit], ?_⟩
        intro h2 hh2
        rcases List.mem_cons.mp hh2 with h2a | h2p
        · left
          intro heq
          exact hgkey.2 (by rw [← heq, h2a]; exact List.mem_cons_self _ _)
        · rcases hpre h2 h2p with hne | hs
          · exact Or.inl hne
          · rcases List.mem_cons.mp hs with h2ka | h2ks
            · left
              intro heq
              exact hgkey.2 (by rw [← heq, h2ka]; exact List.mem_cons_self _ _)
            · exact Or.inr h2ks
    · rw [dedupGo, if_neg ha] at h
      rcases ih seen g h with ⟨pre, post, hsplit, hpre⟩
      refine ⟨a :: pre, post, by simp [hsplit], ?_⟩
      intro h2 hh2
      rcases List.mem_cons.mp hh2 with h2a | h2p
      · subst h2a
        by_cases hkeq : key h2 = key g
        · right
          rcases not_and_or.mp ha with hv | hs
          · have := dedupGo_key_not_seen key valid _ seen g h
            exact absurd (hkeq ▸ this.1) hv
          · exact not_not.mp hs
        · exact Or.inl hkeq
      · exact hpre h2 h2p

theorem dedupGo_key_covered (key : Record → String) (valid : String → Bool) :
    ∀ (l : List Record) (seen : List String) (g : Record),
      g ∈ l → valid (key g) = true →
      key g ∈ seen ∨ ∃ g2, g2 ∈ dedupGo key valid seen l ∧ key g2 = key g := by
  intro l
  induction l with
  | nil => intro seen g h; simp at h
  | cons a rest ih =>
    intro seen g hg hv
    by_cases ha : valid (key a) ∧ key a ∉ seen
    · rw [dedupGo, if_pos ha]
      rcases List.mem_cons.mp hg with hga | hgr
      · exact Or.inr ⟨a, List.mem_cons_self _ _, by rw [hga]⟩
      · rcases ih (key a :: seen) g hgr hv with hs | ⟨g2, hg2, hk2⟩
        · rcases List.mem_cons.mp hs with hka | hks
          · exact Or.inr ⟨a, List.mem_cons_self _ _, hka.symm⟩
          · exact Or.inl hks
        · exact Or.inr ⟨g2, List.mem_cons_of_mem _ hg2, hk2⟩
    · rw [dedupGo, if_neg ha]
      rcases List.mem_cons.mp hg with hga | hgr
      · subst hga
        rcases not_and_or.mp ha with hvv | hs
        · exact absurd hv hvv
        · exact Or.inl (not_not.mp hs)
      · exact ih seen g hgr hv

/-! ## Claim theorems -/

/-- C1: for every source fetch within a single search, if the HTTP
response status is non-2xx, the request times out, or any transport
error occurs, that source contributes an empty record list and no
exception propagates to the search caller; one source's failure does
not change any other source's contributed records and does not abort
the batch. -/
theorem C1_confirmed (parse : String → List Record) (outcomes : List FetchOutcome)
    (i : Nat) (hi : i < outcomes.length)
    (hfail : fetchFailed (outcomes.get ⟨i, hi⟩)) :
    search_single_source parse (outcomes.get ⟨i, hi⟩) = []
    ∧ (∀ o e, search_single_source_try parse o = Except.error e →
        search_single_source parse o = [])
    ∧ (∀ (o2 : FetchOutcome) (j : Nat) (hj : j < outcomes.length), j ≠ i →
        (gather_results parse (outcomes.set i o2)).get
            ⟨j, by simpa [gather_results] using hj⟩
          = (gather_results parse outcomes).get ⟨j, by simpa [gather_results] using hj⟩) := by
  refine ⟨?_, ?_, ?_⟩
  · cases ho : outcomes.get ⟨i, hi⟩ with
    | success st body =>
      rw [ho] at hfail
      have hne : st ≠ 200 := by
        rcases hfail with h | h <;> omega
      simp [search_single_source, search_single_source_try, fetch_response, hne]
    | timeout => simp [search_single_source, search_single_source_try, fetch_response]
    | netError m => simp [search_single_source, search_single_source_try, fetch_response]
  · intro o e h
    simp [search_single_source, h]
  · intro o2 j hj hne
    simp only [gather_results, List.get_eq_getElem, List.getElem_map]
    congr 1
    exact List.getElem_set_ne (fun h => hne h.symm) ..

/-- Witness for C1 at a concrete failing outcome: a timeout source
contributes the empty record list. -/
theorem C1_witness :
    fetchFailed FetchOutcome.timeout
    ∧ search_single_source (fun _ => ([] : List Record)) FetchOutcome.timeout = [] :=
  ⟨True.intro,
   (C1_confirmed (fun _ => []) [FetchOutcome.timeout] 0 (by decide) True.intro).1⟩

/-- C10: both duplicate-removal routines are idempotent and return a
subsequence of their input (surviving records keep their relative
order). -/
theorem C10_confirmed (l : List Record) :
    remove_duplicates (remove_duplicates l) = remove_duplicates l
    ∧ List.Sublist (remove_duplicates l) l
    ∧ deduplicate_groups (deduplicate_groups l) = deduplicate_groups l
    ∧ List.Sublist (deduplicate_groups l) l :=
  ⟨dedupGo_idem _ _ l [], dedupGo_sublist _ _ l [],
   dedupGo_idem _ _ l [], dedupGo_sublist _ _ l []⟩

/-- Counterexample to C2: the two links HOST-slash-Foo-slash and
host-slash-foo are equal under the normalization the claim describes
(lower-case, drop a trailing slash, reduce a t.me link to its
identifier), yet the app variant's deduplication keys only on the
lower-cased link, so both records survive its output. -/
theorem C2_counterexample :
    specNormKey "HOST/Foo/" = specNormKey "host/foo"
    ∧ deduplicate_groups
        [Record.mk "A" "HOST/Foo/" "" 0 "s1", Record.mk "B" "host/foo" "" 0 "s2"]
      = [Record.mk "A" "HOST/Foo/" "" 0 "s1", Record.mk "B" "host/foo" "" 0 "s2"] := by
  decide

/-- C2 amended: the claim holds for the bot variant's duplicate removal,
whose key is the lower-cased link with slashes stripped at both ends and
t.me links reduced to the identifier: the output has pairwise distinct
keys, every survivor is the first record carrying its key, and every
input key has exactly one surviving representative.  (The app variant's
deduplication keys only on the lower-cased link, so trailing-slash
variants both survive there, as the counterexample shows.) -/
theorem C2_amended (l : List Record) :
    ((remove_duplicates l).map (fun g => botLinkKey g.link)).Nodup
    ∧ (∀ g, g ∈ remove_duplicates l →
        ∃ pre post, l = pre ++ g :: post
          ∧ ∀ h ∈ pre, botLinkKey h.link ≠ botLinkKey g.link)
    ∧ (∀ g, g ∈ l →
        ∃ g2, g2 ∈ remove_duplicates l ∧ botLinkKey g2.link = botLinkKey g.link) := by
  refine ⟨dedupGo_nodup_keys _ _ l [], ?_, ?_⟩
  · intro g hg
    rcases dedupGo_first_seen _ _ l [] g hg with ⟨pre, post, hsplit, hpre⟩
    refine ⟨pre, post, hsplit, ?_⟩
    intro h hh
    rcases hpre h hh with hne | hmem
    · exact hne
    · simp at hmem
  · intro g hg
    rcases dedupGo_key_covered (fun g => botLinkKey g.link) (fun _ => true) l [] g hg rfl
      with hmem | hex
    · simp at hmem
    · exact hex

/-- Witness for C2 at the claim's own scenario: of the two records
linking to HOST-slash-Foo-slash and host-slash-foo, the bot variant
keeps exactly one representative for their shared key. -/
theorem C2_witness :
    ∃ g2, g2 ∈ remove_duplicates
        [Record.mk "A" "HOST/Foo/" "" 0 "s1", Record.mk "B" "host/foo" "" 0 "s2"]
      ∧ botLinkKey g2.link = botLinkKey (Record.mk "B" "host/foo" "" 0 "s2").link :=
  (C2_amended [Record.mk "A" "HOST/Foo/" "" 0 "s1", Record.mk "B" "host/foo" "" 0 "s2"]).2.2
    (Record.mk "B" "host/foo" "" 0 "s2") (by decide)

/-- Bridge between the Python set-intersection length (filtering the
deduplicated word list) and the Finset intersection cardinality. -/
theorem dedup_filter_length_eq_card (l l2 : List String) :
    (l.dedup.filter (fun w => decide (w ∈ l2))).length
      = (l.toFinset ∩ l2.toFinset).card := by
  have h : l.toFinset ∩ l2.toFinset
      = (l.dedup.filter (fun w => decide (w ∈ l2))).toFinset := by
    ext x
    simp [List.mem_filter, List.mem_dedup]
  rw [h, List.toFinset_card_of_nodup ((List.nodup_dedup l).filter _)]

/-- C3: the strict-ranking score equals 3 times the number of distinct
query words in the title word set, plus the number of distinct query
words in the description word set, plus 1 when the member count exceeds
1000 and a further 2 when it exceeds 10000, plus 1 when the source is
one of the two higher-quality sources tgstat.com and tlgrm.eu. -/
theorem C3_confirmed (query : String) (g : Record) :
    calculate_relevance query g =
      3 * (((pySplit (pyLower query)).toFinset
              ∩ (pySplit (pyLower g.title)).toFinset).card : Int)
      + 1 * (((pySplit (pyLower query)).toFinset
              ∩ (pySplit (pyLower g.description)).toFinset).card : Int)
      + (if 1000 < g.members then 1 else 0)
      + (if 10000 < g.members then 2 else 0)
      + (if g.source = "tgstat.com" ∨ g.source = "tlgrm.eu" then 1 else 0) := by
  simp only [calculate_relevance, dedup_filter_length_eq_card]
  ring

/-- Counterexample to C4: two records with equal score where the second
has the larger member count stay in first-seen order — the code sorts
only by score (stably) and never breaks ties by member count. -/
theorem C4_counterexample :
    filter_and_rank
        [Record.mk "crypto news" "l1" "" 5 "x", Record.mk "crypto talk" "l2" "" 10 "x"]
        "crypto"
      = [Record.mk "crypto news" "l1" "" 5 "x", Record.mk "crypto talk" "l2" "" 10 "x"]
    ∧ calculate_relevance "crypto" (Record.mk "crypto news" "l1" "" 5 "x")
        = calculate_relevance "crypto" (Record.mk "crypto talk" "l2" "" 10 "x")
    ∧ (Record.mk "crypto news" "l1" "" 5 "x").members
        < (Record.mk "crypto talk" "l2" "" 10 "x").members := by
  decide

/-- C4 amended: the returned sequence is sorted by score descending and
the sort is stable — records with equal score keep their first-seen
order from the merge step; member count is not a tie-break.  Stability
is stated as: filtering the output by any predicate that only holds
within one score class returns exactly the input's records of that
class, in input order (restricted to strictly positive scores, which is
what the strict ranking keeps). -/
theorem C4_amended (query : String) (groups : List Record) :
    (filter_and_rank groups query).Pairwise
        (fun a b => calculate_relevance query b ≤ calculate_relevance query a)
    ∧ ∀ p : Record → Bool,
        (∀ y z, p y = true → p z = true →
          calculate_relevance query y = calculate_relevance query z) →
        (filter_and_rank groups query).filter p
          = groups.filter (fun g => p g && decide (0 < calculate_relevance query g)) := by
  constructor
  · exact (pairwise_pySortDesc (calculate_relevance query) groups).sublist
      (List.filter_sublist _)
  · intro p hp
    unfold filter_and_rank
    rw [List.filter_filter]
    exact filter_pySortDesc (calculate_relevance query) groups _
      (fun y z hy hz => by
        rcases Bool.and_eq_true .. ▸ hy with ⟨hy1, _⟩
        rcases Bool.and_eq_true .. ▸ hz with ⟨hz1, _⟩
        exact hp y z hy1 hz1)

/-- Witness for C4 at a singleton input with the score-3 class
predicate. -/
theorem C4_witness :
    (filter_and_rank [Record.mk "crypto" "l" "" 0 "s"] "crypto").filter
        (fun g => calculate_relevance "crypto" g == 3)
      = [Record.mk "crypto" "l" "" 0 "s"].filter
          (fun g => (calculate_relevance "crypto" g == 3)
            && decide (0 < calculate_relevance "crypto" g)) :=
  (C4_amended "crypto" [Record.mk "crypto" "l" "" 0 "s"]).2
    (fun g => calculate_relevance "crypto" g == 3)
    (fun y z hy hz => (eq_of_beq hy).trans (eq_of_beq hz).symm)

/-- The inner broadening loop only consults the oracle at the sources it
iterates over. -/
theorem inner_loop_congr (res res2 : Nat → String → List Record) (term : String) :
    ∀ (srcs : List Nat) (acc : List Record),
      (∀ s ∈ srcs, res s term = res2 s term) →
      inner_loop res term srcs acc = inner_loop res2 term srcs acc := by
  intro srcs
  induction srcs with
  | nil => intro acc h; rfl
  | cons s rest ih =>
    intro acc h
    simp only [inner_loop]
    rw [h s (List.mem_cons_self _ _)]
    split
    · rfl
    · exact ih _ (fun s2 hs2 => h s2 (List.mem_cons_of_mem _ hs2))

/-- The outer broadening loop only consults the oracle at the first two
sources and at the terms it iterates over that differ from the query. -/
theorem broader_loop_congr (res res2 : Nat → String → List Record) (query : String) :
    ∀ (terms : List String) (acc : List Record),
      (∀ t ∈ terms, t ≠ query → ∀ s, s < 2 → res s t = res2 s t) →
      broader_loop res query terms acc = broader_loop res2 query terms acc := by
  intro terms
  induction terms with
  | nil => intro acc h; rfl
  | cons t rest ih =>
    intro acc h
    by_cases ht : t = query
    · simp only [broader_loop, if_pos ht]
      exact ih _ (fun t2 ht2 => h t2 (List.mem_cons_of_mem _ ht2))
    · simp only [broader_loop, if_neg ht]
      have hsrc : ∀ s ∈ ([0, 1] : List Nat), res s t = res2 s t := by
        intro s hs
        refine h t (List.mem_cons_self _ _) ht s ?_
        rcases List.mem_cons.mp hs with h0 | h1
        · omega
        · simp at h1
          omega
      rw [inner_loop_congr res res2 t [0, 1] acc hsrc]
      by_cases hlen : 10 ≤ (inner_loop res2 t [0, 1] acc).length
      · simp [hlen]
      · simp only [if_neg hlen]
        exact ih _ (fun t2 ht2 => h t2 (List.mem_cons_of_mem _ ht2))

/-- Counterexample to C5: with three distinct records available and a
maxResults of two, the pre-broadening deduplicated count is three — not
below the threshold — yet the broadening condition holds because the
code tests the count after truncation to maxResults. -/
theorem C5_counterexample :
    (final_groups_bot resThreeLinks "crypto" 2).length < 3
    ∧ ¬ (remove_duplicates (all_groups_bot resThreeLinks "crypto")).length < 3 := by
  decide

/-- C5 amended: broadening fires iff the post-truncation count —
the minimum of the deduplicated count and maxResults — is below three;
it runs at most once, re-deduplicating and re-truncating after merging,
and the broadened pass consults only the first two sources at the
broadened terms differing from the original query. -/
theorem C5_amended (res : Nat → String → List Record) (query : String) (maxResults : Nat) :
    ((final_groups_bot res query maxResults).length < 3 ↔
      min (remove_duplicates (all_groups_bot res query)).length maxResults < 3)
    ∧ (search_groups_bot res query maxResults =
        if (final_groups_bot res query maxResults).length < 3 then
          (remove_duplicates
            (final_groups_bot res query maxResults ++ broader_search res query)).take maxResults
        else final_groups_bot res query maxResults)
    ∧ ∀ res2 : Nat → String → List Record,
        (∀ s t, s < 2 → t ∈ broader_terms query → t ≠ query → res s t = res2 s t) →
        broader_search res query = broader_search res2 query := by
  refine ⟨?_, rfl, ?_⟩
  · unfold final_groups_bot
    rw [List.length_take, length_pySortDesc]
    omega
  · intro res2 h
    exact broader_loop_congr res res2 query (broader_terms query) []
      (fun t ht hne s hs => h s t hs ht hne)

/-- Witness for C5: two oracles that agree on the broadened terms of the
query (one additionally answers an unrelated term) produce the same
broadened search result. -/
theorem C5_witness :
    broader_search resBroadA "q" = broader_search resBroadB "q" :=
  (C5_amended resBroadA "q" 40).2.2 resBroadB (by
    intro s t hs ht hne
    have hterms : broader_terms "q" = ["q", "q group", "q channel", "telegram q"] := by
      decide
    rw [hterms] at ht
    simp only [List.mem_cons, List.not_mem_nil, or_false] at ht
    rcases ht with h | h | h | h
    · exact absurd h hne
    · subst h; rfl
    · subst h; rfl
    · subst h; rfl)

/-- Counterexample to C6: the search functions enforce no hard ceiling
of their own — with maxResults 41 and forty-one distinct incoming
records the bot variant returns 41 records, exceeding the documented
40-record cap (the minimum of maxResults and the ceiling). -/
theorem C6_counterexample :
    (search_groups_bot resManyLinks "crypto" 41).length = 41
    ∧ ¬ (search_groups_bot resManyLinks "crypto" 41).length ≤ min 41 40 := by
  constructor
  · decide
  · decide

/-- C6 amended: both search variants return at most maxResults records;
no further ceiling is applied inside the search functions (the 40-cap
lives in the bot's calling layer, which always passes 40). -/
theorem C6_amended (res : Nat → String → List Record) (rng : Nat → Int)
    (query : String) (maxResults : Nat) :
    (search_groups_app res rng query maxResults).length ≤ maxResults
    ∧ (search_groups_bot res query maxResults).length ≤ maxResults := by
  constructor
  · unfold search_groups_app
    rw [List.length_take]
    omega
  · by_cases h : (final_groups_bot res query maxResults).length < 3
    · simp only [search_groups_bot, if_pos h]
      rw [List.length_take]
      omega
    · simp only [search_groups_bot, if_neg h]
      unfold final_groups_bot
      rw [List.length_take]
      omega

/-- Counterexample to C7: for a query matching no category, with every
source returning an empty record list, the app variant substitutes
three fabricated generic records (here with the member oracle returning
1000, a value random.randint can produce) instead of returning an empty
result. -/
theorem C7_counterexample :
    (search_groups_app (fun _ _ => []) (fun _ => 1000) "xyzzy123nonexistent" 20).length = 3 := by
  decide

/-- Helper: with an everywhere-empty oracle the inner broadening loop
returns its accumulator unchanged. -/
theorem inner_loop_empty (res : Nat → String → List Record)
    (hres : ∀ s t, res s t = []) (term : String) :
    ∀ (srcs : List Nat) (acc : List Record), inner_loop res term srcs acc = acc := by
  intro srcs
  induction srcs with
  | nil => intro acc; rfl
  | cons s rest ih =>
    intro acc
    simp only [inner_loop, hres, List.append_nil]
    split
    · rename_i hlen
      rfl
    · exact ih acc

/-- Helper: with an everywhere-empty oracle the outer broadening loop
returns its accumulator unchanged. -/
theorem broader_loop_empty (res : Nat → String → List Record)
    (hres : ∀ s t, res s t = []) (query : String) :
    ∀ (terms : List String) (acc : List Record), broader_loop res query terms acc = acc := by
  intro terms
  induction terms with
  | nil => intro acc; rfl
  | cons t rest ih =>
    intro acc
    simp only [broader_loop]
    split
    · exact ih acc
    · rw [inner_loop_empty res hres t [0, 1] acc]
      split
      · rfl
      · exact ih acc

/-- C7 amended: the bot variant does return an empty record list — not
an error and nothing fabricated — when every source (including the
broadened queries) returns nothing; the app variant instead appends
fabricated popular or generic records whenever fewer than five unique
records remain, so an all-empty query yields three fabricated records
there (counterexample). -/
theorem C7_amended (res : Nat → String → List Record) (hres : ∀ s t, res s t = [])
    (query : String) (maxResults : Nat) :
    search_groups_bot res query maxResults = [] := by
  have hall : all_groups_bot res query = [] := by
    simp [all_groups_bot, hres]
  have hfinal : final_groups_bot res query maxResults = [] := by
    simp [final_groups_bot, hall, remove_duplicates, dedupGo, pySortDesc]
  have hbroad : broader_search res query = [] :=
    broader_loop_empty res hres query (broader_terms query) []
  simp [search_groups_bot, hfinal, hbroad, remove_duplicates, dedupGo]

/-- Witness for C7 at the claim's own scenario query. -/
theorem C7_witness :
    search_groups_bot (fun _ _ => []) "xyzzy123nonexistent" 40 = [] :=
  C7_amended (fun _ _ => []) (fun _ _ => rfl) "xyzzy123nonexistent" 40

/-- Counterexample to C8: a 51-character query is not rejected by the
bot variant — its text handler performs the search (fetching sources)
for any trimmed text longer than one character, with no upper bound. -/
theorem C8_counterexample :
    50 < (pyStrip "aaaaaaaaaaaaaaaaaaaaaaaaaaaaaaaaaaaaaaaaaaaaaaaaaaa").length
    ∧ handle_text_bot (fun _ _ => [])
        "aaaaaaaaaaaaaaaaaaaaaaaaaaaaaaaaaaaaaaaaaaaaaaaaaaa" ≠ none := by
  decide

/-- C8 amended: the app variant rejects queries shorter than 2 or longer
than 50 characters with a validation response before any fetch (its
outcome is independent of the source and randomness oracles and is never
a result list); the bot variant silently ignores texts of at most one
character after trimming (no search, but also no validation response)
and performs the search for over-long queries (counterexample). -/
theorem C8_amended (query : String) (hq : query.length < 2 ∨ 50 < query.length) :
    (∀ res rng res2 rng2,
        perform_search_app res rng query = perform_search_app res2 rng2 query)
    ∧ (∀ res rng gs, perform_search_app res rng query ≠ SearchOutcome.results gs)
    ∧ (∀ res text, (pyStrip text).length ≤ 1 → handle_text_bot res text = none) := by
  refine ⟨?_, ?_, ?_⟩
  · intro res rng res2 rng2
    rcases hq with h | h
    · simp [perform_search_app, if_pos h]
    · have h2 : ¬ query.length < 2 := by omega
      simp [perform_search_app, if_neg h2, if_pos h]
  · intro res rng gs
    rcases hq with h | h
    · simp [perform_search_app, if_pos h]
    · have h2 : ¬ query.length < 2 := by omega
      simp [perform_search_app, if_neg h2, if_pos h]
  · intro res text hlen
    have h1 : ¬ 1 < (pyStrip text).length := by omega
    simp [handle_text_bot, if_neg h1]

/-- Witness for C8 at the one-character query of the spec's scenario. -/
theorem C8_witness :
    perform_search_app (fun _ _ => []) (fun _ => 0) "a"
      = perform_search_app (fun _ _ => [Record.mk "t" "l" "" 0 "s"]) (fun _ => 5) "a" :=
  (C8_amended "a" (Or.inl (by decide))).1 (fun _ _ => []) (fun _ => 0)
    (fun _ _ => [Record.mk "t" "l" "" 0 "s"]) (fun _ => 5)

/-- Counterexample to C9: a source element whose title element exists
with empty text produces a record with an empty title, and that record
reaches the returned search result (its description still scores). -/
theorem C9_counterexample :
    (search_groups_app resEmptyTitle (fun _ => 1000) "crypto" 20).filter
        (fun g => g.title == "") ≠ [] := by
  decide

/-- C9 amended: every record produced by the tlgrm.eu parser has a
non-empty link and a non-negative member count, and the bot variant's
number extraction is non-negative; the title, however, is only derived
from the link when the title element is absent — a present title
element with empty text yields an empty title (counterexample). -/
theorem C9_amended (membersMatch : Option String) (elems : List TlgrmElem)
    (g : Record) (hg : g ∈ parse_tlgrm_eu membersMatch elems) :
    g.link ≠ "" ∧ 0 ≤ g.members ∧ ∀ t : String, 0 ≤ extract_number t := by
  rcases List.mem_filterMap.mp hg with ⟨e, _, he⟩
  have hmv : ∀ m, membersValue membersMatch = some m → 0 ≤ m := by
    intro m hm
    cases membersMatch with
    | none =>
      simp [membersValue] at hm
      omega
    | some s =>
      simp only [membersValue, pyInt] at hm
      split at hm
      · rcases Option.some.injEq .. ▸ hm with h
        omega
      · exact absurd hm (by simp)
  refine ⟨?_, ?_, ?_⟩
  · cases hmv2 : membersValue membersMatch with
    | none => rw [hmv2] at he; simp at he
    | some m =>
      rw [hmv2] at he
      simp only [Option.some.injEq] at he
      have hlink : g.link =
          (if pyStartsWith e.href "http" then e.href
           else "https://t.me/" ++ ⟨(lastSplitStr e.href "/").data.filter (fun c => c ≠ '@')⟩) := by
        rw [← he]
      rw [hlink]
      split
      · rename_i hsw
        intro hempty
        have hdata : e.href.data = [] := by
          rw [hempty]
        simp only [pyStartsWith, hdata, List.isPrefixOf] at hsw
        exact absurd hsw (by decide)
      · intro hempty
        have hdata := congrArg String.data hempty
        simp only [String.data_append] at hdata
        exact absurd hdata (by simp [String.data])
  · cases hmv2 : membersValue membersMatch with
    | none => rw [hmv2] at he; simp at he
    | some m =>
      rw [hmv2] at he
      simp only [Option.some.injEq] at he
      have : g.members = m := by rw [← he]
      rw [this]
      exact hmv m hmv2
  · intro t
    unfold extract_number
    cases first_digit_run t.data with
    | none => simp
    | some ds => simp

/-- Witness for C9 at a concrete parsed element without a title
element: the fallback title derives from the link and the record keeps
a non-empty link and member count zero. -/
theorem C9_witness :
    (Record.mk "abcchan" "https://t.me/abcchan" "Canal/Groupe Telegram" 0 "tlgrm.eu").link ≠ ""
    ∧ (0 : Int) ≤ (Record.mk "abcchan" "https://t.me/abcchan" "Canal/Groupe Telegram" 0 "tlgrm.eu").members
    ∧ ∀ t : String, 0 ≤ extract_number t :=
  C9_amended none [TlgrmElem.mk "https://t.me/abcchan" none none]
    (Record.mk "abcchan" "https://t.me/abcchan" "Canal/Groupe Telegram" 0 "tlgrm.eu")
    (by
      have h : parse_tlgrm_eu none [TlgrmElem.mk "https://t.me/abcchan" none none]
          = [Record.mk "abcchan" "https://t.me/abcchan" "Canal/Groupe Telegram" 0 "tlgrm.eu"] := by
        rfl
      rw [h]
      exact List.mem_singleton.mpr rfl)
